import Mathlib

/-!
# Territory-mapping system: verification of the specified core

Shallow embedding of the territory-mapping front end (GeoJSON adapter,
coordinate-entry validation, drawing-eligibility state) together with
spec-modelled definitions of the server-side matching / overlap / priority
operations that the front end invokes through remote procedure calls.

JavaScript runtime values are modelled by the inductive `JsVal`; JavaScript
numbers are modelled by `JsNum` with rationals for the finite values, so that
NaN / infinities are represented explicitly instead of by floating point.
-/

namespace TerritoryMapping

/-- A JavaScript number: NaN, the two infinities, or a finite value
(modelled as a rational). -/
inductive JsNum where
  | nan
  | posInf
  | negInf
  | finite (q : ℚ)
deriving DecidableEq, Repr

/-- A JavaScript runtime value, as far as the mapped code can observe it:
`undefined`, `null`, booleans, numbers, strings, arrays and plain objects. -/
inductive JsVal where
  | undefined
  | null
  | bool (b : Bool)
  | num (n : JsNum)
  | str (s : String)
  | arr (elems : List JsVal)
  | obj (fields : List (String × JsVal))

/-- `Array.isArray(v)`. -/
def isArray : JsVal → Bool
  | .arr _ => true
  | _ => false

/-- JavaScript truthiness of a value (`!v` is `truthy v = false`). -/
def truthy : JsVal → Bool
  | .undefined => false
  | .null => false
  | .bool b => b
  | .num .nan => false
  | .num (.finite q) => q != 0
  | .num .posInf => true
  | .num .negInf => true
  | .str s => s != ""
  | .arr _ => true
  | .obj _ => true

/-- Property access `v.k` on the values the mapped code applies it to
(primitives and arrays have none of the accessed properties, objects look the
field up); the code only accesses fields of values it has checked truthy, so
the `null`/`undefined` throw case is never reached. -/
def getField (v : JsVal) (k : String) : JsVal :=
  match v with
  | .obj fields => (fields.lookup k).getD .undefined
  | _ => .undefined

/-- Index access `v[i]` for the array-checked values the code indexes. -/
def getIdx (v : JsVal) (i : ℕ) : JsVal :=
  match v with
  | .arr xs => xs.getD i .undefined
  | _ => .undefined

/-- `v.length` for arrays (the code only reads `length` after `Array.isArray`). -/
def jsLength : JsVal → ℕ
  | .arr xs => xs.length
  | _ => 0

/-- Strict equality `v === s` against a string literal. -/
def strictEqStr (v : JsVal) (s : String) : Bool :=
  match v with
  | .str t => t == s
  | _ => false

/-- Loose inequality `v != null`, false exactly for `null` and `undefined`. -/
def looseNeqNull : JsVal → Bool
  | .null => false
  | .undefined => false
  | _ => true

/-- `for (const x of v)`: arrays yield their elements, strings their
characters; every other value is not iterable and throws a `TypeError`
(modelled as `Except.error`). -/
def jsIterate : JsVal → Except Unit (List JsVal)
  | .arr xs => .ok xs
  | .str s => .ok (s.toList.map (fun c => .str c.toString))
  | _ => .error ()

mutual

/-- Structural size of a value, used as the termination measure of the
recursive GeoJSON conversion. -/
def JsVal.size : JsVal → ℕ
  | .undefined => 1
  | .null => 1
  | .bool _ => 1
  | .num _ => 1
  | .str _ => 1
  | .arr xs => 1 + JsVal.sizeList xs
  | .obj fs => 1 + JsVal.sizeFields fs

def JsVal.sizeList : List JsVal → ℕ
  | [] => 0
  | x :: xs => 1 + JsVal.size x + JsVal.sizeList xs

def JsVal.sizeFields : List (String × JsVal) → ℕ
  | [] => 0
  | (_, v) :: fs => 1 + JsVal.size v + JsVal.sizeFields fs

end

theorem JsVal.size_pos (v : JsVal) : 1 ≤ v.size := by
  cases v <;> simp [JsVal.size]

theorem JsVal.size_le_sizeList {x : JsVal} {xs : List JsVal} (h : x ∈ xs) :
    x.size ≤ JsVal.sizeList xs := by
  induction xs with
  | nil => cases h
  | cons y ys ih =>
    rcases List.mem_cons.mp h with h | h
    · subst h
      simp only [JsVal.sizeList]
      omega
    · have := ih h
      simp only [JsVal.sizeList]
      omega

theorem JsVal.size_le_sizeFields {k : String} {v : JsVal}
    {fs : List (String × JsVal)} (h : fs.lookup k = some v) :
    v.size ≤ JsVal.sizeFields fs := by
  induction fs with
  | nil => simp [List.lookup] at h
  | cons p ps ih =>
    obtain ⟨k', v'⟩ := p
    by_cases hk : k = k'
    · subst hk
      simp [List.lookup] at h
      subst h
      simp only [JsVal.sizeFields]
      omega
    · have hne : (k == k') = false := by simp [hk]
      simp [List.lookup, hne] at h
      have := ih h
      simp only [JsVal.sizeFields]
      omega

/-- If a field holds an array, the array elements together are strictly
smaller than the containing object. -/
theorem JsVal.sizeList_lt_of_getField {g : JsVal} {k : String} {xs : List JsVal}
    (h : getField g k = .arr xs) : JsVal.sizeList xs + 1 < g.size := by
  cases g with
  | obj fs =>
    simp only [getField] at h
    cases hl : fs.lookup k with
    | none => rw [hl] at h; simp [Option.getD] at h
    | some v =>
      rw [hl] at h
      simp [Option.getD] at h
      subst h
      have := JsVal.size_le_sizeFields hl
      simp only [JsVal.size] at this ⊢
      omega
  | undefined => simp [getField] at h
  | null => simp [getField] at h
  | bool b => simp [getField] at h
  | num n => simp [getField] at h
  | str s => simp [getField] at h
  | arr ys => simp [getField] at h

/-! ## Geometry Adapter (`geojsonToLeafletPolygons`, src/unnamed/part_006) -/

/-- An in-memory editable coordinate pair, latitude first: the element
`[pt[1], pt[0]]` that `addPolygonCoords` builds for each retained point. -/
structure LatLng where
  lat : JsVal
  lng : JsVal

/-- A Leaflet polygon: the `L.polygon(rings)` value pushed by
`addPolygonCoords`. -/
structure LPolygon where
  rings : List (List LatLng)

/-- The point filter of `addPolygonCoords`:
`Array.isArray(pt) && pt.length >= 2 && pt[0] != null && pt[1] != null`. -/
def validPoint (pt : JsVal) : Bool :=
  isArray pt && decide (2 ≤ jsLength pt) &&
    looseNeqNull (getIdx pt 0) && looseNeqNull (getIdx pt 1)

/-- One ring of `addPolygonCoords`: filter the valid points and swap each to
`[pt[1], pt[0]]`; a non-array ring becomes `[]`. -/
def processRing (ring : JsVal) : List LatLng :=
  match ring with
  | .arr pts => (pts.filter validPoint).map (fun pt => ⟨getIdx pt 1, getIdx pt 0⟩)
  | _ => []

/-- `addPolygonCoords(coords)` of `geojsonToLeafletPolygons`: returns the
(zero or one) polygons pushed onto `polys`. -/
def addPolygonCoords : JsVal → List LPolygon
  | .arr rs =>
    if rs.isEmpty then []
    else
      let rings := (rs.map processRing).filter (fun r => decide (3 ≤ r.length))
      if rings.isEmpty then [] else [⟨rings⟩]
  | _ => []

mutual

/-- `geojsonToLeafletPolygons(geojson)` (src/unnamed/part_006, lines 93-146):
converts GeoJSON (Geometry / Feature / FeatureCollection) to Leaflet
polygons.  The result is in `Except` because the `MultiPolygon` branch runs
`for (const polyCoords of (geom.coordinates || []))`, which throws a
`TypeError` when `coordinates` is truthy but not iterable. -/
def geojsonToLeafletPolygons (g : JsVal) : Except Unit (List LPolygon) :=
  if truthy g = false then .ok []
  else
    let ty := getField g "type"
    let geom :=
      if strictEqStr ty "Feature" then getField g "geometry"
      else if strictEqStr ty "FeatureCollection" then .null
      else g
    if truthy geom = false then
      if strictEqStr ty "FeatureCollection" then
        match hfs : getField g "features" with
        | .arr xs => convertFeatures xs
        | _ => .ok []
      else .ok []
    else if strictEqStr (getField geom "type") "Polygon" then
      .ok (addPolygonCoords (getField geom "coordinates"))
    else if strictEqStr (getField geom "type") "MultiPolygon" then
      let coords := getField geom "coordinates"
      match jsIterate (if truthy coords then coords else .arr []) with
      | .ok items => .ok ((items.map addPolygonCoords).flatten)
      | .error e => .error e
    else .ok []
termination_by JsVal.size g
decreasing_by
  have := JsVal.sizeList_lt_of_getField hfs
  omega

/-- The `for (const f of geojson.features)` loop: convert each feature in
order and concatenate (an error in any feature aborts the whole call). -/
def convertFeatures (xs : List JsVal) : Except Unit (List LPolygon) :=
  match xs with
  | [] => .ok []
  | f :: rest =>
    match geojsonToLeafletPolygons f with
    | .error e => .error e
    | .ok ps =>
      match convertFeatures rest with
      | .error e => .error e
      | .ok qs => .ok (ps ++ qs)
termination_by JsVal.sizeList xs + 1
decreasing_by
  all_goals
    simp only [JsVal.sizeList]
    omega

end

/-! ## Coordinate entry points

The points where a coordinate reaches the Point Matcher or quote creation:
the typed-coordinate form on the quotes page (`parseLatLng`), the
URL parameters of the map page, and the map click
(`setQuotePoint` / `findPartner`). -/

/-- The whitespace characters the pages can realistically carry in a
coordinate field (JavaScript trims all Unicode whitespace). -/
def isJsSpace (c : Char) : Bool :=
  c == ' ' || c == '\t' || c == '\n' || c == '\r'

/-- JavaScript string trimming (`s.trim()`), implemented over the character
list so that it evaluates by reduction. -/
def jsTrim (s : String) : String :=
  ⟨((s.data.dropWhile isJsSpace).reverse.dropWhile isJsSpace).reverse⟩

/-- Value of a decimal digit sequence. -/
def digitsVal (cs : List Char) : ℕ :=
  cs.foldl (fun a c => a * 10 + (c.toNat - 48)) 0

/-- An unsigned decimal literal `digits`, `digits.digits`, `digits.` or
`.digits` as accepted by JavaScript number coercion. -/
def parseUnsignedDec (t : List Char) : Option ℚ :=
  match t.splitOn '.' with
  | [w] =>
    if w ≠ [] ∧ w.all Char.isDigit then some (digitsVal w) else none
  | [w, f] =>
    if (w ≠ [] ∨ f ≠ []) ∧ w.all Char.isDigit ∧ f.all Char.isDigit then
      some ((digitsVal w : ℚ) + (digitsVal f : ℚ) / (10 ^ f.length))
    else none
  | _ => none

/-- JavaScript `Number(string)` coercion, modelled on the inputs the pages
handle: the empty (or all-whitespace) string coerces to `0`, a signed decimal
literal to its value, anything else to `NaN` (exotic literal forms such as
hexadecimal or exponent notation also coerce to numbers in JavaScript but
never arise from the coordinate fields and are modelled as `NaN`). -/
def jsNumber (s : String) : JsNum :=
  match (jsTrim s).data with
  | [] => .finite 0
  | c :: rest =>
    if c = '-' then
      match parseUnsignedDec rest with
      | some q => .finite (-q)
      | none => .nan
    else if c = '+' then
      match parseUnsignedDec rest with
      | some q => .finite q
      | none => .nan
    else
      match parseUnsignedDec (c :: rest) with
      | some q => .finite q
      | none => .nan

/-- `parseLatLng` (src/src/app/[locale]/quotes/page.tsx, lines 110-121):
coerce both text fields with `Number`, throw `Invalid latitude` /
`Invalid longitude` when non-finite or out of range, otherwise return the
pair. -/
def parseLatLng (lat lng : String) : Except String (ℚ × ℚ) :=
  match jsNumber lat with
  | .finite la =>
    if la < -90 ∨ la > 90 then .error "Invalid latitude"
    else
      match jsNumber lng with
      | .finite ln =>
        if ln < -180 ∨ ln > 180 then .error "Invalid longitude"
        else .ok (la, ln)
      | _ => .error "Invalid longitude"
  | _ => .error "Invalid latitude"

/-- The externally visible outcome of one coordinate entry: no call at all, a
synchronous validation error, or a remote call carrying the coordinate. -/
inductive EntryAction where
  | noCall
  | validationError (msg : String)
  | rpcFindPartner (lat lng : ℚ)
  | rpcFindAssignment (lat lng : ℚ)
  | rpcCreateQuote (address : Option String) (lat lng : ℚ)
deriving DecidableEq

/-- `findAssignment` (quotes page, lines 233-256): parse, then call the
`find_assignment_by_point` remote procedure; a parse failure is caught and
shown, no call is made. -/
def findAssignment (lat lng : String) : EntryAction :=
  match parseLatLng lat lng with
  | .error msg => .validationError msg
  | .ok (la, ln) => .rpcFindAssignment la ln

/-- `createQuote` (quotes page, lines 258-288): parse, then call the
`create_quote` remote procedure with `address.trim() || null`. -/
def createQuote (address lat lng : String) : EntryAction :=
  match parseLatLng lat lng with
  | .error msg => .validationError msg
  | .ok (la, ln) =>
    .rpcCreateQuote (if jsTrim address = "" then none else some (jsTrim address)) la ln

/-- The URL-parameter effect of the map page (src/unnamed/part_006, lines
238-284): read `lat`/`lng` from the query string, return early when absent or
empty, non-finite, or out of range; otherwise place the point and call
`find_partner_by_point`. -/
def mapUrlEffect (qLat qLng : Option String) : EntryAction :=
  match qLat, qLng with
  | some a, some b =>
    if a = "" ∨ b = "" then .noCall
    else
      match jsNumber a, jsNumber b with
      | .finite la, .finite ln =>
        if la < -90 ∨ la > 90 ∨ ln < -180 ∨ ln > 180 then .noCall
        else .rpcFindPartner la ln
      | _, _ => .noCall
  | _, _ => .noCall

/-- `findPartner` (src/unnamed/part_006, lines 757-776): the map-click path.
`quoteLat`/`quoteLng` hold whatever coordinate the click handler stored; the
function returns early only when one is `null` and otherwise calls
`find_partner_by_point` with the stored values as they are. -/
def findPartner (quoteLat quoteLng : Option ℚ) : EntryAction :=
  match quoteLat, quoteLng with
  | some la, some ln => .rpcFindPartner la ln
  | _, _ => .noCall

/-- A coerced coordinate is acceptable for the bounds `[lo, hi]` when it is
finite and inside the interval (the check both validated entry points
perform). -/
def inBounds (n : JsNum) (lo hi : ℚ) : Bool :=
  match n with
  | .finite q => decide (lo ≤ q) && decide (q ≤ hi)
  | _ => false

/-! ## Drawing eligibility (src/unnamed/part_006: `loadPartners`, `initDraw`) -/

/-- One row of the `partners` table as selected by `loadPartners`
(`active` is `boolean | null`). -/
structure PartnerRow where
  id : String
  name : String
  active : Option Bool
deriving DecidableEq

/-- A partner option offered in the drawing dropdown. -/
structure Partner where
  id : String
  name : String
deriving DecidableEq

/-- `rows.filter((p) => p.active === true).map(...)` of `loadPartners`. -/
def activePartners (rows : List PartnerRow) : List Partner :=
  (rows.filter (fun p => p.active = some true)).map (fun p => ⟨p.id, p.name⟩)

/-- The map page's partner-selection state: the active-partner list feeding
the drawing dropdown and the currently selected partner id. -/
structure DrawState where
  partnersActive : List Partner
  selectedPartnerId : String
deriving DecidableEq

/-- `loadPartners` run on mount (src/unnamed/part_006, lines 286-320) from an
initially empty selection: the dropdown gets the active partners, and the
selection defaults to the first active partner (empty when there is none). -/
def loadPartners (rows : List PartnerRow) : DrawState :=
  let active := activePartners rows
  { partnersActive := active
    selectedPartnerId :=
      match active with
      | [] => ""
      | p :: _ => p.id }

/-- The values the drawing dropdown can legally emit: the active partners'
ids, or the single empty placeholder option when there are none. -/
def offeredOptions (s : DrawState) : List String :=
  match s.partnersActive with
  | [] => [""]
  | ps => ps.map (fun p => p.id)

/-- The dropdown's `onChange`: store the chosen id. -/
def selectPartner (s : DrawState) (pid : String) : DrawState :=
  { s with selectedPartnerId := pid }

/-- The states the partner selection can be in after mount: the loaded state,
followed by any number of dropdown selections among the offered options. -/
inductive ReachableDrawState (rows : List PartnerRow) : DrawState → Prop where
  | load : ReachableDrawState rows (loadPartners rows)
  | select {s : DrawState} {pid : String} :
      ReachableDrawState rows s → pid ∈ offeredOptions s →
      ReachableDrawState rows (selectPartner s pid)

/-- Outcome of the `Draw.Event.CREATED` handler. -/
inductive DrawAction where
  | errNoActive
  | cancelled
  | upsertTerritory (partnerId name : String) (priority : ℤ)
deriving DecidableEq

/-- The `Draw.Event.CREATED` handler of `initDraw` (src/unnamed/part_006,
lines 671-710): refuse when no partner is selected, drop the layer when the
name prompt is cancelled or empty, otherwise save the drawn territory for the
selected partner with priority 0. -/
def drawCreated (s : DrawState) (promptName : Option String) : DrawAction :=
  if s.selectedPartnerId = "" then .errNoActive
  else
    match promptName with
    | none => .cancelled
    | some n => if n = "" then .cancelled else .upsertTerritory s.selectedPartnerId n 0

/-! ## Spec-modelled server-side operations

`find_partner_by_point`, `resolve_overlap_raise_priority` and
`get_overlaps_for_territory` are remote procedures of the persistence
collaborator; their bodies are not part of this repository, so they are
modelled from the specification. -/

/-- Modelled from the spec: a territory as the Point Matcher sees it — the
missing server-side `find_partner_by_point` works over named, partner-owned
territories with an integer priority and a polygon containment test
(represented as the containment predicate of its geometry, since the spec
leaves the boundary policy of the point-in-polygon test open). -/
structure STerritory where
  id : ℕ
  partnerId : ℕ
  priority : ℤ
  contains : ℚ × ℚ → Bool

/-- Fold of the matcher's selection: keep the first candidate seen with the
highest priority so far (ties keep the earlier one — the "first encountered"
tie-break the spec reports). -/
def pickBest : Option STerritory → List STerritory → Option STerritory
  | acc, [] => acc
  | acc, t :: rest =>
    pickBest
      (match acc with
       | none => some t
       | some b => if b.priority < t.priority then some t else some b)
      rest

/-- Modelled from the spec: `matchPoint(point, territories)`, the semantics
the missing server-side `find_partner_by_point` must implement — among the
territories containing the point, select the winner by highest priority,
first-encountered on ties; none when no territory contains the point. -/
def matchPoint (p : ℚ × ℚ) (ts : List STerritory) : Option STerritory :=
  pickBest none (ts.filter (fun t => t.contains p))

/-- Maximum of a list of priorities (none for the empty list). -/
def maxPriority : List ℤ → Option ℤ
  | [] => none
  | q :: qs =>
    some
      (match maxPriority qs with
       | none => q
       | some m => max q m)

/-- Modelled from the spec: `resolve_overlap_raise_priority`, the missing
server-side priority resolver — given a territory's current priority and the
priorities of all territories it currently overlaps, set its priority to one
greater than their maximum and report `(oldPriority, newPriority)`; the spec
defines the operation only for a territory currently involved in at least one
overlap, so the empty overlap list yields none. -/
def resolveOverlapRaisePriority (current : ℤ) (overlapping : List ℤ) :
    Option (ℤ × ℤ) :=
  match maxPriority overlapping with
  | none => none
  | some m => some (current, m + 1)

/-- Modelled from the spec: a territory as the Overlap Detector sees it — the
missing server-side `get_overlaps_for_territory` works over territories whose
geometry covers a region of the plane, modelled as its point set. -/
structure OTerritory where
  id : ℕ
  partnerId : ℕ
  priority : ℤ
  region : Set (ℚ × ℚ)

/-- Modelled from the spec: two territories overlap when the areal
intersection of their geometries is non-empty. -/
def intersects (a b : OTerritory) : Prop :=
  (a.region ∩ b.region).Nonempty

/-- Modelled from the spec: `overlapsForTerritory(T)` — every other territory
of the set whose geometry intersects the focal territory's. -/
def overlapsForTerritory (t : OTerritory) (ts : List OTerritory) : Set OTerritory :=
  { u | u ∈ ts ∧ u.id ≠ t.id ∧ intersects t u }

/-! ## Theorems -/

theorem maxPriority_isSome {qs : List ℤ} (h : qs ≠ []) :
    ∃ m, maxPriority qs = some m := by
  cases qs with
  | nil => exact absurd rfl h
  | cons q rest => exact ⟨_, rfl⟩

theorem le_maxPriority {qs : List ℤ} {m : ℤ} (hm : maxPriority qs = some m) :
    ∀ q ∈ qs, q ≤ m := by
  induction qs generalizing m with
  | nil => intro q hq; cases hq
  | cons x rest ih =>
    intro q hq
    simp only [maxPriority] at hm
    rcases List.mem_cons.mp hq with h | h
    · subst h
      cases hr : maxPriority rest with
      | none => rw [hr] at hm; simp at hm; omega
      | some m' => rw [hr] at hm; simp at hm; omega
    · cases hr : maxPriority rest with
      | none =>
        cases rest with
        | nil => cases h
        | cons y ys => simp [maxPriority] at hr
      | some m' =>
        have := ih hr q h
        rw [hr] at hm
        simp at hm
        omega

/-- C2: for a territory currently involved in at least one overlap,
`resolve_overlap_raise_priority` returns its old priority together with a new
priority that is one greater than the maximum priority among the overlapped
territories — hence strictly above every one of them — and re-running it with
the overlap set and its priorities unchanged returns the same priority again
(new equals old). -/
theorem resolveOverlap_raises_above_max (current : ℤ) (overlapping : List ℤ)
    (h : overlapping ≠ []) :
    ∃ m, maxPriority overlapping = some m ∧
      resolveOverlapRaisePriority current overlapping = some (current, m + 1) ∧
      (∀ q ∈ overlapping, q < m + 1) ∧
      resolveOverlapRaisePriority (m + 1) overlapping = some (m + 1, m + 1) := by
  obtain ⟨m, hm⟩ := maxPriority_isSome h
  refine ⟨m, hm, ?_, ?_, ?_⟩
  · simp [resolveOverlapRaisePriority, hm]
  · intro q hq
    have := le_maxPriority hm q hq
    omega
  · simp [resolveOverlapRaisePriority, hm]

/-- C2 witness: the spec's own example — overlapping priorities 2, 5, 3 give
new priority 6, and a second run leaves the priority at 6. -/
theorem resolveOverlap_raises_above_max_witness :
    ∃ m, maxPriority [2, 5, 3] = some m ∧
      resolveOverlapRaisePriority 0 [2, 5, 3] = some (0, m + 1) ∧
      (∀ q ∈ [(2 : ℤ), 5, 3], q < m + 1) ∧
      resolveOverlapRaisePriority (m + 1) [2, 5, 3] = some (m + 1, m + 1) :=
  resolveOverlap_raises_above_max 0 [2, 5, 3] (by decide)

/-- C7: the scoped overlap query is symmetric — whenever A is listed among
the overlaps of B, B is listed among the overlaps of A (for territories drawn
from the same territory set). -/
theorem overlapsForTerritory_symm (ts : List OTerritory) (A B : OTerritory)
    (hB : B ∈ ts) (hA : A ∈ overlapsForTerritory B ts) :
    B ∈ overlapsForTerritory A ts := by
  obtain ⟨hAmem, hne, p, hp1, hp2⟩ := hA
  exact ⟨hB, fun e => hne e.symm, p, hp2, hp1⟩

/-- C7 witness: two everywhere-defined territories overlap each other, and
the symmetry theorem turns the one listing into the other. -/
theorem overlapsForTerritory_symm_witness :
    (⟨1, 1, 0, Set.univ⟩ : OTerritory) ∈
      overlapsForTerritory ⟨0, 0, 0, Set.univ⟩
        [⟨0, 0, 0, Set.univ⟩, ⟨1, 1, 0, Set.univ⟩] :=
  overlapsForTerritory_symm _ _ _
    (List.mem_cons_of_mem _ (List.mem_cons_self _ _))
    ⟨List.mem_cons_self _ _, by decide, (0, 0), Set.mem_univ _, Set.mem_univ _⟩

theorem pickBest_some_ne_none (l : List STerritory) (b : STerritory) :
    pickBest (some b) l ≠ none := by
  induction l generalizing b with
  | nil => simp [pickBest]
  | cons t rest ih =>
    simp only [pickBest]
    split
    · exact ih t
    · exact ih b

theorem pickBest_sound (l : List STerritory) (acc : Option STerritory)
    (r : STerritory) (h : pickBest acc l = some r) :
    (r ∈ l ∨ acc = some r) ∧ (∀ u ∈ l, u.priority ≤ r.priority) ∧
      (∀ b, acc = some b → b.priority ≤ r.priority) := by
  induction l generalizing acc with
  | nil =>
    refine ⟨Or.inr h, ?_, ?_⟩
    · intro u hu; cases hu
    · intro b hb
      rw [hb] at h
      simp only [pickBest] at h
      injection h with h
      rw [h]
  | cons t rest ih =>
    cases acc with
    | none =>
      simp only [pickBest] at h
      obtain ⟨hmem, hall, hstep⟩ := ih (some t) h
      have hty : t.priority ≤ r.priority := hstep t rfl
      refine ⟨?_, ?_, ?_⟩
      · rcases hmem with hm | hm
        · exact Or.inl (List.mem_cons_of_mem _ hm)
        · injection hm with hm
          exact Or.inl (hm ▸ List.mem_cons_self t rest)
      · intro u hu
        rcases List.mem_cons.mp hu with rfl | hm
        · exact hty
        · exact hall u hm
      · intro b hb
        cases hb
    | some b =>
      simp only [pickBest] at h
      by_cases hlt : b.priority < t.priority
      · rw [if_pos hlt] at h
        obtain ⟨hmem, hall, hstep⟩ := ih (some t) h
        have hty : t.priority ≤ r.priority := hstep t rfl
        refine ⟨?_, ?_, ?_⟩
        · rcases hmem with hm | hm
          · exact Or.inl (List.mem_cons_of_mem _ hm)
          · injection hm with hm
            exact Or.inl (hm ▸ List.mem_cons_self t rest)
        · intro u hu
          rcases List.mem_cons.mp hu with rfl | hm
          · exact hty
          · exact hall u hm
        · intro c hc
          injection hc with hc
          subst hc
          omega
      · rw [if_neg hlt] at h
        obtain ⟨hmem, hall, hstep⟩ := ih (some b) h
        have hby : b.priority ≤ r.priority := hstep b rfl
        refine ⟨?_, ?_, ?_⟩
        · rcases hmem with hm | hm
          · exact Or.inl (List.mem_cons_of_mem _ hm)
          · exact Or.inr hm
        · intro u hu
          rcases List.mem_cons.mp hu with rfl | hm
          · omega
          · exact hall u hm
        · intro c hc
          injection hc with hc
          subst hc
          exact hby

/-- C1: for every point and every territory set, the matcher returns none
exactly when zero territories contain the point (a normal result, not an
error), and whenever some containing territory has strictly higher priority
than every other containing territory, that territory is the one returned. -/
theorem matchPoint_priority_winner (p : ℚ × ℚ) (ts : List STerritory) :
    (matchPoint p ts = none ↔ ∀ t ∈ ts, t.contains p = false) ∧
    (∀ T ∈ ts, T.contains p = true →
      (∀ u ∈ ts, u.contains p = true → u = T ∨ u.priority < T.priority) →
      matchPoint p ts = some T) := by
  constructor
  · constructor
    · intro h t ht
      by_contra hc
      have hcontains : t.contains p = true := by
        cases hcp : t.contains p with
        | true => rfl
        | false => exact absurd hcp hc
      have hmem : t ∈ ts.filter (fun t => t.contains p) :=
        List.mem_filter.mpr ⟨ht, hcontains⟩
      unfold matchPoint at h
      cases hfil : ts.filter (fun t => t.contains p) with
      | nil => rw [hfil] at hmem; cases hmem
      | cons a l =>
        rw [hfil] at h
        simp only [pickBest] at h
        exact pickBest_some_ne_none l a h
    · intro h
      have hfil : ts.filter (fun t => t.contains p) = [] :=
        List.filter_eq_nil_iff.mpr (by
          intro t ht
          simp [h t ht])
      simp [matchPoint, hfil, pickBest]
  · intro T hT hc hmax
    have hTmem : T ∈ ts.filter (fun t => t.contains p) :=
      List.mem_filter.mpr ⟨hT, hc⟩
    cases hres : matchPoint p ts with
    | none =>
      exfalso
      unfold matchPoint at hres
      cases hfil : ts.filter (fun t => t.contains p) with
      | nil => rw [hfil] at hTmem; cases hTmem
      | cons a l =>
        rw [hfil] at hres
        simp only [pickBest] at hres
        exact pickBest_some_ne_none l a hres
    | some r =>
      have hsound := pickBest_sound (ts.filter (fun t => t.contains p)) none r
        (by simpa [matchPoint] using hres)
      obtain ⟨hmem', hall, _⟩ := hsound
      rcases hmem' with hmem' | habs
      · have hr := List.mem_filter.mp hmem'
        rcases hmax r hr.1 hr.2 with rfl | hlt
        · rfl
        · exfalso
          have := hall T hTmem
          omega
      · cases habs

/-- C1 witness: a point inside two overlapping territories is matched to the
one with the strictly higher priority. -/
theorem matchPoint_priority_winner_witness :
    matchPoint (0, 0)
      [⟨1, 1, 0, fun _ => true⟩, ⟨2, 2, 5, fun _ => true⟩] =
      some ⟨2, 2, 5, fun _ => true⟩ :=
  (matchPoint_priority_winner (0, 0) _).2 _
    (List.mem_cons_of_mem _ (List.mem_cons_self _ _)) rfl
    (by
      intro u hu _
      rcases List.mem_cons.mp hu with rfl | h
      · right; decide
      · left; simpa using h)

end TerritoryMapping

namespace TerritoryMapping

/-- C10: coordinate parsing on the quotes page accepts the empty string —
both fields empty coerce to the in-bounds point (0, 0), so `parseLatLng` does
not reject, and `findAssignment` / `createQuote` proceed to their remote
calls with latitude 0 and longitude 0 instead of reporting a validation
error. -/
theorem empty_coordinates_accepted_as_zero :
    parseLatLng "" "" = .ok (0, 0) ∧
    findAssignment "" "" = .rpcFindAssignment 0 0 ∧
    createQuote "" "" "" = .rpcCreateQuote none 0 0 := by
  refine ⟨?_, ?_, ?_⟩ <;> rfl

end TerritoryMapping

namespace TerritoryMapping

theorem out_of_bounds_of_inBounds_false {q lo hi : ℚ}
    (h : inBounds (.finite q) lo hi = false) : q < lo ∨ hi < q := by
  simp only [inBounds, Bool.and_eq_false_iff, decide_eq_false_iff_not, not_le] at h
  exact h

/-- C4 (amended): the typed-coordinate entry point (`parseLatLng`, hence
`findAssignment` and `createQuote`) and the URL-parameter entry point reject
a latitude outside [-90, 90] or a longitude outside [-180, 180] (or a
non-finite coercion) before any matcher or persistence call; the map-click
entry point, by contrast, forwards whatever stored coordinate it holds to the
matcher without any bounds check. -/
theorem coordinate_validation_entry_points (latS lngS : String)
    (h : inBounds (jsNumber latS) (-90) 90 = false ∨
         inBounds (jsNumber lngS) (-180) 180 = false) :
    (∃ m, parseLatLng latS lngS = .error m) ∧
    (∃ m, findAssignment latS lngS = .validationError m) ∧
    (∀ addr, ∃ m, createQuote addr latS lngS = .validationError m) ∧
    mapUrlEffect (some latS) (some lngS) = .noCall ∧
    (∀ la ln : ℚ, findPartner (some la) (some ln) = .rpcFindPartner la ln) := by
  have perr : ∃ m, parseLatLng latS lngS = Except.error m := by
    unfold parseLatLng
    cases hla : jsNumber latS with
    | nan => exact ⟨_, rfl⟩
    | posInf => exact ⟨_, rfl⟩
    | negInf => exact ⟨_, rfl⟩
    | finite q =>
      dsimp only
      by_cases hq : q < -90 ∨ q > 90
      · rw [if_pos hq]
        exact ⟨_, rfl⟩
      · rw [if_neg hq]
        have hlng : inBounds (jsNumber lngS) (-180) 180 = false := by
          rcases h with h | h
          · exfalso
            rw [hla] at h
            rcases out_of_bounds_of_inBounds_false h with h1 | h1
            · exact hq (Or.inl h1)
            · exact hq (Or.inr h1)
          · exact h
        cases hln : jsNumber lngS with
        | nan => exact ⟨_, rfl⟩
        | posInf => exact ⟨_, rfl⟩
        | negInf => exact ⟨_, rfl⟩
        | finite p =>
          dsimp only
          rw [hln] at hlng
          rw [if_pos (out_of_bounds_of_inBounds_false hlng)]
          exact ⟨_, rfl⟩
  obtain ⟨msg, hmsg⟩ := perr
  refine ⟨⟨msg, hmsg⟩, ⟨msg, ?_⟩, ?_, ?_, ?_⟩
  · unfold findAssignment
    rw [hmsg]
  · intro addr
    unfold createQuote
    rw [hmsg]
    exact ⟨msg, rfl⟩
  · unfold mapUrlEffect
    dsimp only
    by_cases hempty : latS = "" ∨ lngS = ""
    · rw [if_pos hempty]
    · rw [if_neg hempty]
      cases hla : jsNumber latS with
      | nan => rfl
      | posInf => rfl
      | negInf => rfl
      | finite q =>
        cases hln : jsNumber lngS with
        | nan => rfl
        | posInf => rfl
        | negInf => rfl
        | finite p =>
          dsimp only
          have : q < -90 ∨ q > 90 ∨ p < -180 ∨ p > 180 := by
            rcases h with h | h
            · rw [hla] at h
              rcases out_of_bounds_of_inBounds_false h with h1 | h1
              · exact Or.inl h1
              · exact Or.inr (Or.inl h1)
            · rw [hln] at h
              rcases out_of_bounds_of_inBounds_false h with h1 | h1
              · exact Or.inr (Or.inr (Or.inl h1))
              · exact Or.inr (Or.inr (Or.inr h1))
          rw [if_pos this]
  · intro la ln
    rfl

/-- C4 witness: latitude text "91" is rejected by the typed and URL entry
points before any call, while the map-click path still calls the matcher with
any stored coordinate. -/
theorem coordinate_validation_entry_points_witness :
    (∃ m, parseLatLng "91" "0" = .error m) ∧
    (∃ m, findAssignment "91" "0" = .validationError m) ∧
    (∀ addr, ∃ m, createQuote addr "91" "0" = .validationError m) ∧
    mapUrlEffect (some "91") (some "0") = .noCall ∧
    (∀ la ln : ℚ, findPartner (some la) (some ln) = .rpcFindPartner la ln) :=
  coordinate_validation_entry_points "91" "0" (Or.inl (by rfl))

/-- C4 counterexample: the claim says an out-of-range coordinate is rejected
at every entry point before any matcher call is attempted, but the map-click
entry point attempts the `find_partner_by_point` call with latitude 91. -/
theorem mapclick_out_of_range_reaches_matcher :
    findPartner (some 91) (some 0) = .rpcFindPartner 91 0 ∧ ¬((91 : ℚ) ≤ 90) := by
  exact ⟨rfl, by norm_num⟩

end TerritoryMapping

namespace TerritoryMapping

theorem partnersActive_invariant {rows : List PartnerRow} {s : DrawState}
    (hs : ReachableDrawState rows s) :
    s.partnersActive = activePartners rows ∧
      (s.selectedPartnerId = "" ∨
        s.selectedPartnerId ∈ (activePartners rows).map Partner.id) := by
  induction hs with
  | load =>
    refine ⟨rfl, ?_⟩
    unfold loadPartners
    cases hact : activePartners rows with
    | nil => exact Or.inl rfl
    | cons p ps =>
      right
      exact List.mem_map_of_mem _ (List.mem_cons_self _ _)
  | select hr hmem ih =>
    rename_i st pidStr
    obtain ⟨hact, _⟩ := ih
    refine ⟨hact, ?_⟩
    unfold offeredOptions at hmem
    rw [hact] at hmem
    cases hcase : activePartners rows with
    | nil =>
      rw [hcase] at hmem
      dsimp only at hmem
      simp at hmem
      exact Or.inl hmem
    | cons p ps =>
      rw [hcase] at hmem
      dsimp only at hmem
      right
      exact hmem

/-- C8: in the drawing UI the partner selection offered for drawing is
exactly the partners whose `active` flag is `true` (a `false` or `null` flag
excludes the partner), and every territory-creation event that actually
issues an `upsert_territory` call does so for a partner whose row is active —
so no new territory can be created for an inactive partner. -/
theorem drawing_excludes_inactive_partners (rows : List PartnerRow)
    (s : DrawState) (hs : ReachableDrawState rows s) :
    (∀ q : Partner, q ∈ s.partnersActive ↔
        ∃ r ∈ rows, r.active = some true ∧ q = ⟨r.id, r.name⟩) ∧
    (∀ promptName pid nm prio,
        drawCreated s promptName = .upsertTerritory pid nm prio →
        ∃ r ∈ rows, r.id = pid ∧ r.active = some true) := by
  obtain ⟨hact, hsel⟩ := partnersActive_invariant hs
  constructor
  · intro q
    rw [hact]
    unfold activePartners
    constructor
    · intro hq
      obtain ⟨r, hr, hrq⟩ := List.mem_map.mp hq
      have := List.mem_filter.mp hr
      refine ⟨r, this.1, ?_, hrq.symm⟩
      simpa using this.2
    · rintro ⟨r, hr, hra, rfl⟩
      exact List.mem_map_of_mem _ (List.mem_filter.mpr ⟨hr, by simpa using hra⟩)
  · intro promptName pid nm prio hcall
    unfold drawCreated at hcall
    by_cases hempty : s.selectedPartnerId = ""
    · rw [if_pos hempty] at hcall
      cases hcall
    · rw [if_neg hempty] at hcall
      have hpid : pid = s.selectedPartnerId := by
        cases promptName with
        | none => cases hcall
        | some n =>
          by_cases hn : n = ""
          · rw [hn] at hcall
            simp at hcall
          · simp [hn] at hcall
            exact hcall.1.symm
      subst hpid
      rcases hsel with h | h
      · exact absurd h hempty
      · obtain ⟨q, hq, hqid⟩ := List.mem_map.mp h
        obtain ⟨r, hr, hrq⟩ := List.mem_map.mp (by
          unfold activePartners at hq
          exact hq)
        have hfil := List.mem_filter.mp hr
        refine ⟨r, hfil.1, ?_, by simpa using hfil.2⟩
        rw [← hqid, ← hrq]

/-- C8 witness: with one active and one inactive partner, the offered
selection is exactly the active one, and any issued territory upsert is for
an active partner's id. -/
theorem drawing_excludes_inactive_partners_witness :
    (∀ q : Partner,
        q ∈ (loadPartners
              [⟨"p1", "Alice", some true⟩, ⟨"p2", "Bob", some false⟩]).partnersActive ↔
        ∃ r ∈ [(⟨"p1", "Alice", some true⟩ : PartnerRow),
               ⟨"p2", "Bob", some false⟩],
          r.active = some true ∧ q = ⟨r.id, r.name⟩) ∧
    (∀ promptName pid nm prio,
        drawCreated
            (loadPartners
              [⟨"p1", "Alice", some true⟩, ⟨"p2", "Bob", some false⟩]) promptName =
          .upsertTerritory pid nm prio →
        ∃ r ∈ [(⟨"p1", "Alice", some true⟩ : PartnerRow),
               ⟨"p2", "Bob", some false⟩],
          r.id = pid ∧ r.active = some true) :=
  drawing_excludes_inactive_partners _ _ ReachableDrawState.load

end TerritoryMapping

namespace TerritoryMapping

/-- The retention condition the adapter's point filter actually decides,
stated structurally: the point is an array of length at least two whose first
two entries are neither `null` nor `undefined`.  There is no finiteness
requirement: a NaN or infinite coordinate is retained. -/
def retainedPoint (pt : JsVal) : Prop :=
  ∃ x y rest, pt = .arr (x :: y :: rest) ∧
    x ≠ .null ∧ x ≠ .undefined ∧ y ≠ .null ∧ y ≠ .undefined

theorem looseNeqNull_iff (v : JsVal) :
    looseNeqNull v = true ↔ v ≠ .null ∧ v ≠ .undefined := by
  cases v <;> simp [looseNeqNull]

theorem validPoint_iff_retained (pt : JsVal) :
    validPoint pt = true ↔ retainedPoint pt := by
  cases pt with
  | arr xs =>
    match xs with
    | [] =>
      simp [validPoint, retainedPoint, isArray, jsLength, getIdx]
    | [x] =>
      simp [validPoint, retainedPoint, isArray, jsLength, getIdx]
    | x :: y :: rest =>
      constructor
      · intro h
        simp only [validPoint, isArray, jsLength, getIdx, Bool.and_eq_true,
          decide_eq_true_eq, looseNeqNull_iff, List.getD_cons_zero,
          List.getD_cons_succ, List.length_cons, true_and] at h
        exact ⟨x, y, rest, rfl, h.1.2.1, h.1.2.2, h.2.1, h.2.2⟩
      · rintro ⟨x', y', rest', heq, hx1, hx2, hy1, hy2⟩
        obtain ⟨rfl, rfl, rfl⟩ : x = x' ∧ y = y' ∧ rest = rest' := by
          injection heq with h
          injection h with h1 h2
          injection h2 with h3 h4
          exact ⟨h1, h3, h4⟩
        simp only [validPoint, isArray, jsLength, getIdx, Bool.and_eq_true,
          decide_eq_true_eq, looseNeqNull_iff, List.getD_cons_zero,
          List.getD_cons_succ, List.length_cons, true_and]
        exact ⟨⟨by omega, hx1, hx2⟩, hy1, hy2⟩
  | undefined => simp [validPoint, retainedPoint, isArray]
  | null => simp [validPoint, retainedPoint, isArray]
  | bool b => simp [validPoint, retainedPoint, isArray]
  | num n => simp [validPoint, retainedPoint, isArray]
  | str s => simp [validPoint, retainedPoint, isArray]
  | obj fs => simp [validPoint, retainedPoint, isArray]

/-- C3 (amended): the adapter filters out of each ring exactly the points
that are not arrays of length ≥ 2 or whose first two coordinates are null or
undefined — a non-finite (NaN/infinite) coordinate is retained, not filtered
— then drops each ring left with fewer than 3 points, and produces no polygon
when no valid ring remains (and only then). -/
theorem adapter_drops_invalid_points_rings_polygons (rs : List JsVal) :
    (∀ pt : JsVal, validPoint pt = true ↔ retainedPoint pt) ∧
    (∀ P ∈ addPolygonCoords (.arr rs),
        P.rings = (rs.map processRing).filter (fun r => decide (3 ≤ r.length)) ∧
          P.rings ≠ [] ∧ ∀ r ∈ P.rings, 3 ≤ r.length) ∧
    (addPolygonCoords (.arr rs) = [] ↔
        (rs.map processRing).filter (fun r => decide (3 ≤ r.length)) = []) := by
  refine ⟨validPoint_iff_retained, ?_, ?_⟩
  · intro P hP
    unfold addPolygonCoords at hP
    dsimp only at hP
    by_cases hrs : rs.isEmpty
    · rw [if_pos hrs] at hP
      cases hP
    · rw [if_neg hrs] at hP
      by_cases hrings : ((rs.map processRing).filter (fun r => decide (3 ≤ r.length))).isEmpty
      · rw [if_pos hrings] at hP
        cases hP
      · rw [if_neg hrings] at hP
        have hPval : P = ⟨(rs.map processRing).filter (fun r => decide (3 ≤ r.length))⟩ := by
          simpa using hP
        subst hPval
        refine ⟨rfl, by simpa [List.isEmpty_iff] using hrings, ?_⟩
        intro r hr
        have := List.mem_filter.mp hr
        simpa using this.2
  · unfold addPolygonCoords
    dsimp only
    by_cases hrs : rs.isEmpty
    · rw [if_pos hrs]
      have : rs = [] := by simpa [List.isEmpty_iff] using hrs
      subst this
      simp
    · rw [if_neg hrs]
      by_cases hrings : ((rs.map processRing).filter (fun r => decide (3 ≤ r.length))).isEmpty
      · rw [if_pos hrings]
        simpa [List.isEmpty_iff] using hrings
      · rw [if_neg hrings]
        constructor
        · intro h; cases h
        · intro h
          exact absurd (by simpa [List.isEmpty_iff] using h) (by simpa [List.isEmpty_iff] using hrings)

/-- C3 witness: a point whose first coordinate is NaN passes the adapter's
retention filter — it is an array of two entries, neither null nor undefined
— so a non-finite coordinate is retained. -/
theorem adapter_drops_invalid_points_rings_polygons_witness :
    retainedPoint (.arr [.num .nan, .num (.finite 0)]) :=
  ((adapter_drops_invalid_points_rings_polygons []).1
    (.arr [.num .nan, .num (.finite 0)])).mp rfl

/-- C3 counterexample: a Polygon whose first ring point has a NaN first
coordinate.  The claim requires that point to be filtered out (either
coordinate non-finite), which would leave a 2-point ring, drop it, and yield
no polygon; the code instead retains the NaN point and returns the polygon
with the NaN as the editable longitude. -/
theorem adapter_retains_nonfinite_point :
    geojsonToLeafletPolygons
        (.obj [("type", .str "Polygon"),
               ("coordinates",
                 .arr [.arr [.arr [.num .nan, .num (.finite 0)],
                             .arr [.num (.finite 1), .num (.finite 1)],
                             .arr [.num (.finite 2), .num (.finite 2)]]])]) =
      .ok [⟨[[⟨.num (.finite 0), .num .nan⟩,
              ⟨.num (.finite 1), .num (.finite 1)⟩,
              ⟨.num (.finite 2), .num (.finite 2)⟩]]⟩] := by
  rw [geojsonToLeafletPolygons]
  simp [getField, truthy, strictEqStr, addPolygonCoords, processRing,
        validPoint, isArray, jsLength, getIdx, looseNeqNull, List.lookup,
        List.filter, Option.getD]

end TerritoryMapping

namespace TerritoryMapping

/-- C5: the adapter's axis swap is uniform — the i-th retained stored pair
`[lng, lat]` of a ring appears as the i-th editable pair with `lat` first and
`lng` second (point order preserved, every retained pair swapped the same
way), and an emitted polygon's rings are the processed source rings in source
order. -/
theorem adapter_axis_swap (rs : List JsVal) :
    (∀ (pts : List JsVal) (i : ℕ) (pt : JsVal),
        (pts.filter validPoint)[i]? = some pt →
        (processRing (.arr pts))[i]? = some ⟨getIdx pt 1, getIdx pt 0⟩) ∧
    (∀ P ∈ addPolygonCoords (.arr rs),
        P.rings = (rs.map processRing).filter (fun r => decide (3 ≤ r.length))) := by
  constructor
  · intro pts i pt hpt
    simp only [processRing, List.getElem?_map, hpt]
    rfl
  · intro P hP
    unfold addPolygonCoords at hP
    dsimp only at hP
    by_cases hrs : rs.isEmpty
    · rw [if_pos hrs] at hP
      cases hP
    · rw [if_neg hrs] at hP
      by_cases hrings : ((rs.map processRing).filter (fun r => decide (3 ≤ r.length))).isEmpty
      · rw [if_pos hrings] at hP
        cases hP
      · rw [if_neg hrings] at hP
        have : P = ⟨(rs.map processRing).filter (fun r => decide (3 ≤ r.length))⟩ := by
          simpa using hP
        rw [this]

/-- C5 witness: the stored pair `[3, 4]` (longitude 3, latitude 4) appears in
the editable ring as latitude 4 first, longitude 3 second. -/
theorem adapter_axis_swap_witness :
    (processRing (.arr [.arr [.num (.finite 3), .num (.finite 4)]]))[0]? =
      some ⟨.num (.finite 4), .num (.finite 3)⟩ :=
  (adapter_axis_swap []).1 [.arr [.num (.finite 3), .num (.finite 4)]] 0
    (.arr [.num (.finite 3), .num (.finite 4)]) rfl

end TerritoryMapping

namespace TerritoryMapping

/-- A GeoJSON `Feature` object wrapping a geometry. -/
def mkFeature (g : JsVal) : JsVal :=
  .obj [("type", .str "Feature"), ("geometry", g)]

/-- A GeoJSON `FeatureCollection` object with the given features. -/
def mkFeatureCollection (fs : List JsVal) : JsVal :=
  .obj [("type", .str "FeatureCollection"), ("features", .arr fs)]

theorem strictEqStr_eq_true_iff (v : JsVal) (s : String) :
    strictEqStr v s = true ↔ v = .str s := by
  cases v <;> simp [strictEqStr]

theorem strictEqStr_eq_false_of_ne {v : JsVal} {s : String} (h : v ≠ .str s) :
    strictEqStr v s = false := by
  cases he : strictEqStr v s with
  | false => rfl
  | true => exact absurd ((strictEqStr_eq_true_iff v s).mp he) h

theorem convertFeatures_eq_mapM (xs : List JsVal) :
    convertFeatures xs =
      (xs.mapM geojsonToLeafletPolygons).map List.flatten := by
  induction xs with
  | nil =>
    rw [convertFeatures]
    rfl
  | cons f rest ih =>
    rw [convertFeatures, List.mapM_cons]
    cases hf : geojsonToLeafletPolygons f with
    | error e =>
      simp [Bind.bind, Except.bind, Functor.map, Except.map]
    | ok ps =>
      cases hr : (rest.mapM geojsonToLeafletPolygons) with
      | error e =>
        rw [ih, hr]
        simp [Bind.bind, Except.bind, Functor.map, Except.map]
      | ok pss =>
        rw [ih, hr]
        simp [Bind.bind, Except.bind, Functor.map, Except.map, pure, Except.pure]

end TerritoryMapping

namespace TerritoryMapping

/-- The geometry-branch behaviour of `geojsonToLeafletPolygons` on a plain
geometry value (no Feature/FeatureCollection wrapper), used to relate the
wrapped and unwrapped conversions. -/
def convGeom (geom : JsVal) : Except Unit (List LPolygon) :=
  if truthy geom = false then .ok []
  else if strictEqStr (getField geom "type") "Polygon" then
    .ok (addPolygonCoords (getField geom "coordinates"))
  else if strictEqStr (getField geom "type") "MultiPolygon" then
    match jsIterate
        (if truthy (getField geom "coordinates") then getField geom "coordinates"
         else .arr []) with
    | .ok items => .ok ((items.map addPolygonCoords).flatten)
    | .error e => .error e
  else .ok []

theorem convert_mkFeature (g : JsVal) : geojsonToLeafletPolygons (mkFeature g) = convGeom g := by
  rw [geojsonToLeafletPolygons]
  simp [mkFeature, getField, List.lookup, strictEqStr, truthy, convGeom]

theorem convert_plain_geometry (g : JsVal)
    (hF : getField g "type" ≠ .str "Feature")
    (hFC : getField g "type" ≠ .str "FeatureCollection") :
    geojsonToLeafletPolygons g = convGeom g := by
  have hsF := strictEqStr_eq_false_of_ne hF
  have hsFC := strictEqStr_eq_false_of_ne hFC
  rw [geojsonToLeafletPolygons]
  by_cases hg : truthy g = false
  · rw [if_pos hg, convGeom, if_pos hg]
  · rw [if_neg hg]
    simp only [hsF, hsFC, Bool.false_eq_true, if_false]
    rw [if_neg hg, convGeom, if_neg hg]

/-- C6: unwrapping is uniform — converting a `Feature` wrapping a geometry
(any value that is not itself typed `Feature`/`FeatureCollection`) yields
exactly the polygons of converting the geometry directly, and converting a
`FeatureCollection` yields the concatenation, in order, of converting each of
its features (errors propagating). -/
theorem adapter_unwraps_feature_and_collection :
    (∀ g : JsVal, getField g "type" ≠ .str "Feature" →
        getField g "type" ≠ .str "FeatureCollection" →
        geojsonToLeafletPolygons (mkFeature g) = geojsonToLeafletPolygons g) ∧
    (∀ fs : List JsVal,
        geojsonToLeafletPolygons (mkFeatureCollection fs) =
          (fs.mapM geojsonToLeafletPolygons).map List.flatten) := by
  constructor
  · intro g hF hFC
    rw [convert_mkFeature, convert_plain_geometry g hF hFC]
  · intro fs
    rw [geojsonToLeafletPolygons]
    simp only [mkFeatureCollection, getField, List.lookup, strictEqStr, truthy]
    rw [← convertFeatures_eq_mapM]
    simp

/-- C6 witness: a `Feature` wrapping a concrete empty-coordinates `Polygon`
converts to exactly what the bare `Polygon` converts to. -/
theorem adapter_unwraps_feature_and_collection_witness :
    geojsonToLeafletPolygons
        (mkFeature (.obj [("type", .str "Polygon"), ("coordinates", .arr [])])) =
      geojsonToLeafletPolygons
        (.obj [("type", .str "Polygon"), ("coordinates", .arr [])]) :=
  adapter_unwraps_feature_and_collection.1 _
    (by simp [getField, List.lookup]) (by simp [getField, List.lookup])

end TerritoryMapping

namespace TerritoryMapping

/-- `v` is a string value. -/
def isJsString : JsVal → Bool
  | .str _ => true
  | _ => false

mutual

/-- No object anywhere inside the value is a `MultiPolygon` whose
`coordinates` is truthy but not iterable (not an array, not a string) — the
one shape on which the adapter's `for...of` loop throws. -/
def multiOk : JsVal → Bool
  | .obj fs =>
    (if strictEqStr ((fs.lookup "type").getD .undefined) "MultiPolygon" then
       !truthy ((fs.lookup "coordinates").getD .undefined) ||
         isArray ((fs.lookup "coordinates").getD .undefined) ||
         isJsString ((fs.lookup "coordinates").getD .undefined)
     else true) && multiOkFields fs
  | .arr xs => multiOkList xs
  | _ => true

def multiOkList : List JsVal → Bool
  | [] => true
  | x :: xs => multiOk x && multiOkList xs

def multiOkFields : List (String × JsVal) → Bool
  | [] => true
  | (_, v) :: fs => multiOk v && multiOkFields fs

end

theorem multiOk_lookup {fs : List (String × JsVal)} {k : String} {v : JsVal}
    (hok : multiOkFields fs = true) (h : fs.lookup k = some v) :
    multiOk v = true := by
  induction fs with
  | nil => simp [List.lookup] at h
  | cons p ps ih =>
    obtain ⟨k', v'⟩ := p
    rw [multiOkFields] at hok
    simp only [Bool.and_eq_true] at hok
    by_cases hk : k = k'
    · subst hk
      simp [List.lookup] at h
      subst h
      exact hok.1
    · have hne : (k == k') = false := by simp [hk]
      simp [List.lookup, hne] at h
      exact ih hok.2 h

theorem multiOk_getField {g : JsVal} {k : String} (hok : multiOk g = true) :
    multiOk (getField g k) = true := by
  cases g with
  | obj fs =>
    simp only [getField]
    cases hl : fs.lookup k with
    | none => rfl
    | some v =>
      rw [multiOk] at hok
      simp only [Bool.and_eq_true] at hok
      exact multiOk_lookup hok.2 hl
  | undefined => rfl
  | null => rfl
  | bool b => rfl
  | num n => rfl
  | str s => rfl
  | arr xs => rfl

theorem multiOkList_mem {xs : List JsVal} {x : JsVal}
    (hok : multiOkList xs = true) (h : x ∈ xs) : multiOk x = true := by
  induction xs with
  | nil => cases h
  | cons y ys ih =>
    rw [multiOkList] at hok
    simp only [Bool.and_eq_true] at hok
    rcases List.mem_cons.mp h with rfl | h
    · exact hok.1
    · exact ih hok.2 h

end TerritoryMapping

namespace TerritoryMapping

theorem jsIterate_ok_of_multiOk {G : JsVal} (hok : multiOk G = true)
    (hm : strictEqStr (getField G "type") "MultiPolygon" = true) :
    ∃ items,
      jsIterate
        (if truthy (getField G "coordinates") then getField G "coordinates"
         else .arr []) = .ok items := by
  cases G with
  | obj fs =>
    rw [multiOk] at hok
    simp only [Bool.and_eq_true] at hok
    have hcond := hok.1
    simp only [getField] at hm ⊢
    rw [if_pos hm] at hcond
    by_cases ht : truthy ((fs.lookup "coordinates").getD .undefined) = true
    · rw [if_pos ht]
      simp only [Bool.or_eq_true] at hcond
      rcases hcond with (hn | ha) | hs
      · rw [Bool.not_eq_eq_eq_not] at hn
        simp at hn
        rw [ht] at hn
        cases hn
      · cases hc : (fs.lookup "coordinates").getD .undefined with
        | arr ys => exact ⟨ys, rfl⟩
        | undefined => rw [hc] at ha; simp [isArray] at ha
        | null => rw [hc] at ha; simp [isArray] at ha
        | bool b => rw [hc] at ha; simp [isArray] at ha
        | num m => rw [hc] at ha; simp [isArray] at ha
        | str t => rw [hc] at ha; simp [isArray] at ha
        | obj gs => rw [hc] at ha; simp [isArray] at ha
      · cases hc : (fs.lookup "coordinates").getD .undefined with
        | str t => exact ⟨_, rfl⟩
        | undefined => rw [hc] at hs; simp [isJsString] at hs
        | null => rw [hc] at hs; simp [isJsString] at hs
        | bool b => rw [hc] at hs; simp [isJsString] at hs
        | num m => rw [hc] at hs; simp [isJsString] at hs
        | arr ys => rw [hc] at hs; simp [isJsString] at hs
        | obj gs => rw [hc] at hs; simp [isJsString] at hs
    · rw [if_neg ht]
      exact ⟨[], rfl⟩
  | undefined => simp [getField, strictEqStr] at hm
  | null => simp [getField, strictEqStr] at hm
  | bool b => simp [getField, strictEqStr] at hm
  | num m => simp [getField, strictEqStr] at hm
  | str t => simp [getField, strictEqStr] at hm
  | arr ys => simp [getField, strictEqStr] at hm

theorem convGeom_ok {G : JsVal} (hok : multiOk G = true) :
    ∃ ps, convGeom G = .ok ps := by
  unfold convGeom
  by_cases h1 : truthy G = false
  · rw [if_pos h1]
    exact ⟨[], rfl⟩
  rw [if_neg h1]
  by_cases h2 : strictEqStr (getField G "type") "Polygon" = true
  · rw [if_pos h2]
    exact ⟨_, rfl⟩
  rw [if_neg h2]
  by_cases h3 : strictEqStr (getField G "type") "MultiPolygon" = true
  · rw [if_pos h3]
    obtain ⟨items, hit⟩ := jsIterate_ok_of_multiOk hok h3
    rw [hit]
    exact ⟨_, rfl⟩
  · rw [if_neg h3]
    exact ⟨[], rfl⟩

theorem convert_feature_typed (g : JsVal) (hg : truthy g = true)
    (hty : getField g "type" = .str "Feature") :
    geojsonToLeafletPolygons g = convGeom (getField g "geometry") := by
  rw [geojsonToLeafletPolygons, hg, hty]
  simp [strictEqStr, convGeom]

theorem convert_fc_typed (g : JsVal) (hg : truthy g = true)
    (hty : getField g "type" = .str "FeatureCollection") :
    geojsonToLeafletPolygons g =
      (match getField g "features" with
       | .arr xs => convertFeatures xs
       | _ => .ok []) := by
  rw [geojsonToLeafletPolygons, hg, hty]
  simp only [strictEqStr, truthy]
  cases hE : getField g "features" with
  | arr xs => simp
  | undefined => simp
  | null => simp
  | bool b => simp
  | num m => simp
  | str t => simp
  | obj gs => simp

/-- C9 (amended): the conversion signals no failure and returns a (possibly
empty) polygon list, silently omitting malformed rings and polygons, for
every input — null, non-Polygon/MultiPolygon geometry types, missing or
non-array Polygon coordinates included — except that a `MultiPolygon` whose
`coordinates` is truthy but not iterable (not an array or string, e.g. a
number or plain object) makes the `for...of` loop throw a `TypeError`. -/
theorem adapter_total_unless_bad_multipolygon (g : JsVal)
    (h : multiOk g = true) : ∃ ps, geojsonToLeafletPolygons g = .ok ps := by
  suffices H : ∀ n : ℕ,
      (∀ g : JsVal, JsVal.size g ≤ n → multiOk g = true →
        ∃ ps, geojsonToLeafletPolygons g = .ok ps) ∧
      (∀ xs : List JsVal, JsVal.sizeList xs ≤ n → multiOkList xs = true →
        ∃ ps, convertFeatures xs = .ok ps) by
    exact (H (JsVal.size g)).1 g le_rfl h
  intro n
  induction n using Nat.strong_induction_on with
  | _ n ih =>
    constructor
    · intro g hsz hok
      by_cases hg : truthy g = false
      · rw [geojsonToLeafletPolygons, if_pos hg]
        exact ⟨[], rfl⟩
      have hg' : truthy g = true := by
        cases htt : truthy g
        · exact absurd htt hg
        · rfl
      by_cases hF : getField g "type" = .str "Feature"
      · rw [convert_feature_typed g hg' hF]
        exact convGeom_ok (multiOk_getField hok)
      by_cases hFC : getField g "type" = .str "FeatureCollection"
      · rw [convert_fc_typed g hg' hFC]
        cases hE : getField g "features" with
        | arr xs =>
          have hxs : multiOkList xs = true := by
            have hgf := multiOk_getField (k := "features") hok
            rw [hE, multiOk] at hgf
            exact hgf
          have hsize : JsVal.sizeList xs < n := by
            have := JsVal.sizeList_lt_of_getField hE
            omega
          exact (ih (JsVal.sizeList xs) hsize).2 xs le_rfl hxs
        | undefined => exact ⟨[], rfl⟩
        | null => exact ⟨[], rfl⟩
        | bool b => exact ⟨[], rfl⟩
        | num m => exact ⟨[], rfl⟩
        | str t => exact ⟨[], rfl⟩
        | obj gs => exact ⟨[], rfl⟩
      · rw [convert_plain_geometry g hF hFC]
        exact convGeom_ok hok
    · intro xs hsz hok
      cases xs with
      | nil =>
        rw [convertFeatures]
        exact ⟨[], rfl⟩
      | cons f rest =>
        rw [convertFeatures]
        rw [multiOkList] at hok
        simp only [Bool.and_eq_true] at hok
        simp only [JsVal.sizeList] at hsz
        have hfsz : JsVal.size f < n := by omega
        have hrsz : JsVal.sizeList rest < n := by omega
        obtain ⟨ps, hps⟩ := (ih _ hfsz).1 f le_rfl hok.1
        obtain ⟨qs, hqs⟩ := (ih _ hrsz).2 rest le_rfl hok.2
        rw [hps, hqs]
        exact ⟨ps ++ qs, rfl⟩

/-- C9 witness: a FeatureCollection nesting a Feature-wrapped Polygon with
malformed rings and a MultiPolygon whose coordinates is an array converts
without failure. -/
theorem adapter_total_unless_bad_multipolygon_witness :
    ∃ ps,
      geojsonToLeafletPolygons
        (mkFeatureCollection
          [mkFeature (.obj [("type", .str "Polygon"),
                            ("coordinates", .arr [.arr [.num (.finite 1)], .null])]),
           .obj [("type", .str "MultiPolygon"), ("coordinates", .arr [.null])],
           .num (.finite 7)]) = .ok ps :=
  adapter_total_unless_bad_multipolygon _ (by rfl)

/-- C9 counterexample: a `MultiPolygon` whose `coordinates` is the number 5
(a truthy, non-array, non-iterable value — one of the claim's "non-array
coordinate structures") makes the conversion throw instead of returning a
list. -/
theorem adapter_raises_on_noniterable_multipolygon :
    geojsonToLeafletPolygons
        (.obj [("type", .str "MultiPolygon"), ("coordinates", .num (.finite 5))]) =
      .error () := by
  rw [geojsonToLeafletPolygons]
  simp [getField, truthy, strictEqStr, jsIterate, List.lookup, Option.getD]

end TerritoryMapping
